import Mathlib

/-!
A shallow embedding of the `fmt` output-filtering stream library
(`code_fmt_stream.h` and the generic chaining filter `basic_filter_streambuf`),
together with theorems settling the specification's claims about it.

Characters are modelled as byte values (`Nat`); a sink (`std::basic_streambuf`
reached through `sputn` / `sputc`) is modelled by the number of bytes it
accepts per call, as a function of the number offered.
-/

namespace Fmt

/-- A sink accepts some number of the bytes offered in one `sputn` call.
`sink n` is the count accepted when `n` bytes are offered. -/
abbrev Sink := Nat → Nat

/-- A well-formed sink never reports more bytes accepted than offered. -/
def SinkOk (sink : Sink) : Prop := ∀ n, sink n ≤ n

/-- The unbounded sink: accepts everything offered. -/
def fullSink : Sink := fun n => n

/-- A sink that accepts exactly one byte per call (when at least one is offered). -/
def oneSink : Sink := fun n => min 1 n

/-- Value of `ControlCodes::EndOfLine` (0xa). -/
def EndOfLineB : Nat := 10

/-- Value of `ControlCodes::Indent` (0xf). -/
def IndentB : Nat := 15

/-- Value of `ControlCodes::Undent` (0xe). -/
def UndentB : Nat := 14

/-- Whitespace per `std::isspace(c, locale)` with the default-constructed classic locale:
space (0x20) and the range 0x9..0xd. -/
def isspaceB (b : Nat) : Bool := b == 32 || (9 ≤ b && b ≤ 13)

/-- The mutable state of `basic_fmtstreambuf` (header variant), apart from the
sink pointer: `indent_increment` (default 4), `at_start_of_line` (initially
true), `indent_level` (initially 0) and `pending_indent` (initially 0). -/
structure FmtState where
  indent_increment : Nat
  at_start_of_line : Bool
  indent_level : Nat
  pending_indent : Nat
deriving Repr, DecidableEq

/-- The state a freshly constructed `basic_fmtstreambuf` is in. -/
def initFmt : FmtState := ⟨4, true, 0, 0⟩

/-- Operation `indent()`: unconditionally increment `indent_level`. -/
def FmtState.indent (st : FmtState) : FmtState :=
  { st with indent_level := st.indent_level + 1 }

/-- Operation `undent()`: `if (indent_level) --indent_level;` — decrement only when
nonzero, clamping at 0. -/
def FmtState.undent (st : FmtState) : FmtState :=
  if st.indent_level ≠ 0 then { st with indent_level := st.indent_level - 1 } else st

/-- The static `spaces` array of `do_indentation`:
`static char_type spaces[] = "                ";` — sixteen spaces followed by
the string literal's NUL terminator. -/
def spacesArr : List Nat := List.replicate 16 32 ++ [0]

/-- Chunk size `spaces_count = sizeof(spaces)`: 17, because `sizeof` counts the NUL
terminator of the sixteen-space literal. -/
def spacesCount : Nat := 17

/-- The loop of `do_indentation`.  Each iteration offers
`min pending spaces_count` bytes of `spaces` to the sink; on full acceptance
`pending` is decremented by the chunk and the loop continues, otherwise the
loop stops, returning the (undiminished) `pending` value, with the accepted
prefix of the chunk already delivered.  The first argument is fuel equal to
the initial count: each iteration consumes a chunk of at least one byte, so
the fuel never runs out on the loop's real traces.
Returns (bytes delivered to the sink, final `pending_indent`). -/
def doIndentLoop (sink : Sink) : Nat → Nat → List Nat × Nat
  | _, 0 => ([], 0)
  | 0, p + 1 => ([], p + 1)
  | fuel + 1, p + 1 =>
      let pending := p + 1
      let chunk := min pending spacesCount
      let accepted := sink chunk
      if accepted = chunk then
        let r := doIndentLoop sink fuel (pending - chunk)
        (spacesArr.take chunk ++ r.1, r.2)
      else
        (spacesArr.take (min accepted chunk), pending)

/-- Function `do_indentation(indentation_count)`: run the chunked space-writing loop.
Returns (bytes delivered, final `pending_indent`); the C++ return value is 0
exactly when the second component is 0. -/
def do_indentation (sink : Sink) (count : Nat) : List Nat × Nat :=
  doIndentLoop sink count count

/-- Result of one `xsputn` call: the return value (`consumed`), the bytes
delivered to the next sink during the call, and the updated filter state. -/
structure WriteResult where
  consumed : Nat
  out : List Nat
  st : FmtState
deriving Repr, DecidableEq

/-- The per-byte loop of `basic_fmtstreambuf::xsputn` (lines 114-143).
Mark bytes adjust the level and are discarded; at start of line whitespace is
discarded and indentation is emitted before the first non-space byte;
`at_start_of_line` is updated (line 137) before the single-byte `sputn`
(line 139), so it is updated even when that write then fails. -/
def xsputnGo (sink : Sink) : FmtState → List Nat → WriteResult
  | st, [] => ⟨0, [], st⟩
  | st, b :: rest =>
    if b = IndentB then
      let r := xsputnGo sink st.indent rest
      ⟨r.consumed + 1, r.out, r.st⟩
    else if b = UndentB then
      let r := xsputnGo sink st.undent rest
      ⟨r.consumed + 1, r.out, r.st⟩
    else if st.at_start_of_line && isspaceB b then
      let r := xsputnGo sink st rest
      ⟨r.consumed + 1, r.out, r.st⟩
    else if st.at_start_of_line then
      let d := do_indentation sink (st.indent_level * st.indent_increment)
      let stI := { st with pending_indent := d.2 }
      if d.2 ≠ 0 then ⟨0, d.1, stI⟩
      else
        let stE := { stI with at_start_of_line := b == EndOfLineB }
        let a := sink 1
        if a = 1 then
          let r := xsputnGo sink stE rest
          ⟨r.consumed + 1, d.1 ++ b :: r.out, r.st⟩
        else ⟨0, d.1 ++ [b].take a, stE⟩
    else
      let stE := { st with at_start_of_line := b == EndOfLineB }
      let a := sink 1
      if a = 1 then
        let r := xsputnGo sink stE rest
        ⟨r.consumed + 1, b :: r.out, r.st⟩
      else ⟨0, [b].take a, stE⟩

/-- Method `basic_fmtstreambuf::xsputn`: first retry any `pending_indent` left from a
previous call (returning 0 if it still cannot be completed), then run the
per-byte loop. -/
def xsputn (sink : Sink) (st : FmtState) (input : List Nat) : WriteResult :=
  if st.pending_indent ≠ 0 then
    let d := do_indentation sink st.pending_indent
    let stI := { st with pending_indent := d.2 }
    if d.2 ≠ 0 then ⟨0, d.1, stI⟩
    else
      let r := xsputnGo sink stI input
      ⟨r.consumed, d.1 ++ r.out, r.st⟩
  else xsputnGo sink st input

/-- Method `basic_fmtstreambuf::xsgetn`: `return count;` — it writes nothing into the
destination buffer, reads nothing from the next sink (its signature here has
no sink at all, as the body never touches `next`), and changes no state. -/
def xsgetn (st : FmtState) (ibuf : List Nat) (count : Nat) : Nat × List Nat × FmtState :=
  (count, ibuf, st)

/-- Builder `basic_begin(open_brace)`: the open brace, the indent mark, end-of-line. -/
def basic_begin (openBrace : Nat) : List Nat := [openBrace, IndentB, EndOfLineB]

/-- Builder `basic_end(close_brace)`: undent mark, end-of-line, the close brace,
end-of-line. -/
def basic_end (closeBrace : Nat) : List Nat := [UndentB, EndOfLineB, closeBrace, EndOfLineB]

/-- A constructed `basic_fmtstreambuf`: the stored `next` pointer (possibly
null, modelled as `none`) together with the filter state. -/
structure FmtBuf where
  next : Option Sink
  st : FmtState

/-- The constructor `basic_fmtstreambuf(next) : next{next} {}` — it stores the
given pointer with no validation whatsoever and cannot fail, so its result is
always `some`.  (The only rejected construction is the no-argument one, via
the deleted default constructor, which is a compile-time matter.) -/
def fmtConstruct (next : Option Sink) : Option FmtBuf :=
  some ⟨next, initFmt⟩

/-- Writing through a constructed buffer.  With a null `next`, `xsputn`'s
first use of the sink dereferences a null pointer — undefined behavior,
modelled as a crash (`none`). -/
def fmtBufWrite (buf : FmtBuf) (input : List Nat) : Option WriteResult :=
  match buf.next with
  | none => none
  | some sink => some (xsputn sink buf.st input)

/-- The caller-side retry protocol: call `xsputn`, drop the bytes reported as
consumed, and resubmit the remainder, `k` times.  Returns the bytes delivered
to the sink over all calls, and the final state. -/
def retryWrite (sink : Sink) : Nat → FmtState → List Nat → List Nat × FmtState
  | 0, st, _ => ([], st)
  | k + 1, st, input =>
      let r := xsputn sink st input
      let more := retryWrite sink k r.st (input.drop r.consumed)
      (r.out ++ more.1, more.2)

/-! ### The generic chaining filter `basic_filter_streambuf` (part_001) -/

/-- The shift loop of `basic_filter_streambuf::sync`:
`for (ssize_t cp = n; cp < (sizeof(obuf) - n); ++cp) obuf[cp - n] = obuf[cp];`
modelled with an explicit iteration count (the number of loop executions). -/
def shiftIter (n : Nat) : Nat → Nat → List Nat → List Nat
  | 0, _, buf => buf
  | k + 1, cp, buf => shiftIter n k (cp + 1) (buf.set (cp - n) (buf.getD cp 0))

/-- Method `basic_filter_streambuf::sync` with the default `filter_write`
(`next->sputn(obuf, count)`): `W` is the buffer capacity (`sizeof(obuf)` for
`char`), `obuf` the buffer contents, `pcount = pptr() - obuf` the number of
buffered bytes.  `sputn` delivers at most the offered count, hence the `min`.
On full acceptance the put area is reset; otherwise the shift loop runs for
`(sizeof(obuf) - n) - n` iterations and `pbump(sizeof(obuf) - n)` leaves
`sizeof(obuf) - n` bytes marked as buffered.
Returns (new buffer contents, new buffered count, bytes delivered). -/
def syncModel (W : Nat) (sink : Sink) (obuf : List Nat) (pcount : Nat) :
    List Nat × Nat × List Nat :=
  let n := min (sink pcount) pcount
  let delivered := obuf.take n
  if n = pcount then (obuf, 0, delivered)
  else
    let buf2 := shiftIter n ((W - n) - n) n obuf
    (buf2, W - n, delivered)

/-! ### Spec-side definitions (from the specification's words) -/

/-- Split an input into its lines at `EndOfLine` bytes (the separator is not
kept; a trailing `EndOfLine` yields a final empty segment). -/
def linesOf : List Nat → List (List Nat)
  | [] => [[]]
  | b :: r =>
    if b = EndOfLineB then [] :: linesOf r
    else
      match linesOf r with
      | [] => [[b]]
      | s :: ss => (b :: s) :: ss

/-- Join lines with single `EndOfLine` bytes between them. -/
def joinLines : List (List Nat) → List Nat
  | [] => []
  | [s] => s
  | s :: ss => s ++ EndOfLineB :: joinLines ss

/-- The claim's per-line transformation, literally as stated: the line's
leading whitespace removed and replaced by `indent_level * indent_increment`
space characters. -/
def claimLine (lvl inc : Nat) (l : List Nat) : List Nat :=
  List.replicate (lvl * inc) 32 ++ l.dropWhile isspaceB

/-- Claim C2 as literally stated, applied to a whole input: every line's
leading whitespace removed and replaced by the indentation spaces. -/
def claimIndent (lvl inc : Nat) (input : List Nat) : List Nat :=
  joinLines ((linesOf input).map (claimLine lvl inc))

/-- The per-line transformation of the amended claim: an empty line segment
(only possible as a trailing segment under the amended hypotheses) produces
nothing; any other line has its leading whitespace removed and replaced by
the indentation spaces. -/
def specLine (lvl inc : Nat) (l : List Nat) : List Nat :=
  if l = [] then [] else claimLine lvl inc l

/-- The amended claim's expected output for a whole input. -/
def specIndent (lvl inc : Nat) (input : List Nat) : List Nat :=
  joinLines ((linesOf input).map (specLine lvl inc))

/-- A line contains at least one non-whitespace byte. -/
def hasNonWs (l : List Nat) : Bool := l.any (fun b => !isspaceB b)

/-- An input contains no indent or undent mark bytes. -/
def noMarks (l : List Nat) : Bool := l.all (fun b => (b != IndentB) && (b != UndentB))

/-- Every line segment contains a non-whitespace byte, except that the final
segment may instead be empty (the input may end with a final `EndOfLine`). -/
def goodSegs : List (List Nat) → Bool
  | [] => true
  | [s] => s.isEmpty || hasNonWs s
  | s :: ss => hasNonWs s && goodSegs ss

end Fmt

namespace Fmt

/-- C3: with `indent_increment = 4` and a fresh filter at level 0 against a
fully accepting sink, writing "A", then `basic_begin('{')`, then "B", then
`basic_end('}')` delivers exactly the bytes of "A{\n    B\n}\n". -/
theorem C3_block_scenario :
    (xsputn fullSink initFmt ([65] ++ basic_begin 123 ++ [66] ++ basic_end 125)).out =
      [65, 123, 10, 32, 32, 32, 32, 66, 10, 125, 10] := by
  decide

/-- C8: `undent()` at level 0 leaves the level at 0; at a positive level it
decrements by exactly one; the level never exceeds its prior value and the
operation is total (never an error). -/
theorem C8_undent_clamps (st : FmtState) :
    (st.indent_level = 0 → st.undent.indent_level = 0) ∧
    (0 < st.indent_level → st.undent.indent_level = st.indent_level - 1) ∧
    st.undent.indent_level ≤ st.indent_level := by
  unfold FmtState.undent
  by_cases h : st.indent_level = 0
  · simp [h]
  · simp [h]

/-- Witness for C8 at concrete states: level 0 stays 0, level 3 becomes 2. -/
theorem C8_undent_clamps_witness :
    (FmtState.undent ⟨4, true, 0, 0⟩).indent_level = 0 ∧
    (FmtState.undent ⟨4, true, 3, 0⟩).indent_level = 2 := by
  refine ⟨(C8_undent_clamps ⟨4, true, 0, 0⟩).1 rfl, ?_⟩
  have h := (C8_undent_clamps ⟨4, true, 3, 0⟩).2.1 (by decide)
  simpa using h

/-- C10: `xsgetn` reports full success (`count`) for every destination buffer
and every count, while writing nothing into the destination, reading nothing
from the next sink, and leaving the filter state untouched. -/
theorem C10_xsgetn_no_transfer (st : FmtState) (ibuf : List Nat) (count : Nat) :
    xsgetn st ibuf count = (count, ibuf, st) := rfl

/-! ### C1: the retry protocol against a partially accepting sink -/

/-- From a state owing four indentation bytes, a call against the one-byte
sink delivers one more space, reports nothing consumed, and leaves the state
(including `pending_indent = 4`) unchanged: `do_indentation` does not subtract
the bytes the sink did accept. -/
lemma xsputn_oneSink_fixpoint :
    xsputn oneSink ⟨4, true, 1, 4⟩ [66] = ⟨0, [32], ⟨4, true, 1, 4⟩⟩ := by decide

/-- Retrying from the stuck state delivers exactly one duplicate space per
call, forever. -/
lemma retry_from_stuck (k : Nat) :
    retryWrite oneSink k ⟨4, true, 1, 4⟩ [66] = (List.replicate k 32, ⟨4, true, 1, 4⟩) := by
  induction k with
  | zero => rfl
  | succ k ih =>
      simp only [retryWrite, xsputn_oneSink_fixpoint, List.drop_zero, ih,
        List.replicate_succ, List.singleton_append]

/-- C1: refuted on the code.  Against a sink accepting one byte per call, a
filter at indent level 1 (increment 4) writing "B" delivers one space per
retry with `pending_indent` stuck at 4 — after `k + 1` calls the sink holds
`k + 1` spaces — so the delivered bytes are never the "    B" that the fully
accepting sink receives: bytes are duplicated and "B" is never delivered. -/
theorem C1_retry_duplicates_and_diverges :
    (∀ k, (retryWrite oneSink (k + 1) ⟨4, true, 1, 0⟩ [66]).1 = List.replicate (k + 1) 32) ∧
    (xsputn fullSink ⟨4, true, 1, 0⟩ [66]).out = [32, 32, 32, 32, 66] ∧
    ∀ k, (retryWrite oneSink k ⟨4, true, 1, 0⟩ [66]).1 ≠
      (xsputn fullSink ⟨4, true, 1, 0⟩ [66]).out := by
  have hfirst : xsputn oneSink ⟨4, true, 1, 0⟩ [66] = ⟨0, [32], ⟨4, true, 1, 4⟩⟩ := by decide
  have hstep : ∀ k, (retryWrite oneSink (k + 1) ⟨4, true, 1, 0⟩ [66]).1 =
      List.replicate (k + 1) 32 := by
    intro k
    simp only [retryWrite, hfirst, List.drop_zero, retry_from_stuck,
      List.replicate_succ, List.singleton_append]
  refine ⟨hstep, by decide, ?_⟩
  intro k h
  have hout : (xsputn fullSink ⟨4, true, 1, 0⟩ [66]).out = [32, 32, 32, 32, 66] := by decide
  cases k with
  | zero => simp [retryWrite, hout] at h
  | succ k =>
      rw [hstep k, hout] at h
      have h66 : (66 : Nat) ∈ List.replicate (k + 1) 32 := by
        rw [h]; simp
      have := List.eq_of_mem_replicate h66
      omega

/-! ### C4: the chain filter's partial-write shift -/

/-- C4: refuted on the code.  A full four-byte buffer `[1,2,3,4]` offered to a
sink that accepts one byte: the shift loop (bounded by `sizeof(obuf) - n`
instead of the buffered count) retains `[2,3,3]` — byte `3` duplicated, byte
`4` lost — where the unconsumed remainder is `[2,3,4]`. -/
theorem C4_sync_shift_corrupts :
    syncModel 4 oneSink [1, 2, 3, 4] 4 = ([2, 3, 3, 4], 3, [1]) ∧
    (syncModel 4 oneSink [1, 2, 3, 4] 4).1.take (syncModel 4 oneSink [1, 2, 3, 4] 4).2.1 ≠
      [2, 3, 4] := by
  decide

/-! ### C5: construction with an absent or null sink -/

/-- C5 counterexample: the claim says construction with a null sink fails
immediately, i.e. `fmtConstruct none = none`; in fact the constructor stores
the null pointer without any check and succeeds. -/
theorem C5_null_construction_succeeds : (fmtConstruct none).isSome = true := rfl

/-- C5 amended: construction with a null sink performs no validation and
succeeds (the deleted default constructor only rejects the no-argument form,
at compile time); the failure is deferred to the first write, which
dereferences the stored null sink. -/
theorem C5_failure_deferred_to_write :
    (fmtConstruct none).isSome = true ∧
    ((fmtConstruct none).bind fun b => fmtBufWrite b [66]) = none := ⟨rfl, rfl⟩

/-! ### C6: pending indentation owed from a previous call -/

/-- C6: refuted on the code.  With `pending_indent = 17` owed on entry and a
fully accepting sink, the claim says 17 remaining spaces are emitted first; the
code emits the 17-byte chunk `spaces` whose last byte is the string literal's
NUL terminator (`sizeof` counts it), so the sink receives 16 spaces and a NUL,
not 17 spaces. -/
theorem C6_pending17_emits_nul :
    (xsputn fullSink ⟨4, false, 0, 17⟩ [66]).out = List.replicate 16 32 ++ [0, 66] ∧
    (xsputn fullSink ⟨4, false, 0, 17⟩ [66]).out ≠ List.replicate 17 32 ++ [66] := by
  decide

/-! ### C2: counterexample to the line-by-line statement -/

/-- C2 counterexample: for the content-only input "A\n\nB" at level 0 the
claim's line-by-line transformation leaves the input unchanged, but the filter
discards the second `EndOfLine` (whitespace at start of line), emitting
"A\nB". -/
theorem C2_blank_line_counterexample :
    (xsputn fullSink ⟨4, true, 0, 0⟩ [65, 10, 10, 66]).out = [65, 10, 66] ∧
    claimIndent 0 4 [65, 10, 10, 66] = [65, 10, 10, 66] ∧
    (xsputn fullSink ⟨4, true, 0, 0⟩ [65, 10, 10, 66]).out ≠
      claimIndent 0 4 [65, 10, 10, 66] := by
  decide

/-! ### C7: control marks never reach the sink, and never touch line state -/

/-- Every byte of the static `spaces` array is a space or the NUL terminator. -/
lemma mem_spacesArr {b : Nat} (h : b ∈ spacesArr) : b = 32 ∨ b = 0 := by
  simp only [spacesArr, List.mem_append, List.mem_replicate, List.mem_singleton] at h
  rcases h with ⟨-, h⟩ | h
  · exact Or.inl h
  · exact Or.inr h

/-- Every byte `do_indentation` delivers is a space or a NUL. -/
lemma doIndentLoop_out (sink : Sink) :
    ∀ fuel p, ∀ b ∈ (doIndentLoop sink fuel p).1, b = 32 ∨ b = 0 := by
  intro fuel
  induction fuel with
  | zero =>
      intro p b hb
      cases p <;> simp [doIndentLoop] at hb
  | succ fuel ih =>
      intro p b hb
      cases p with
      | zero => simp [doIndentLoop] at hb
      | succ q =>
          simp only [doIndentLoop] at hb
          split at hb
          · rcases List.mem_append.1 hb with h | h
            · exact mem_spacesArr (List.mem_of_mem_take h)
            · exact ih _ b h
          · exact mem_spacesArr (List.mem_of_mem_take hb)

/-- Operation `indent()` does not touch `at_start_of_line`. -/
lemma indent_at_start (st : FmtState) : st.indent.at_start_of_line = st.at_start_of_line := rfl

/-- Operation `undent()` does not touch `at_start_of_line`. -/
lemma undent_at_start (st : FmtState) : st.undent.at_start_of_line = st.at_start_of_line := by
  unfold FmtState.undent
  split <;> rfl

/-- Step equation: an indent mark adjusts the level and is discarded. -/
lemma xsputnGo_cons_ind (sink : Sink) (st : FmtState) (rest : List Nat) :
    xsputnGo sink st (IndentB :: rest) =
      ⟨(xsputnGo sink st.indent rest).consumed + 1, (xsputnGo sink st.indent rest).out,
        (xsputnGo sink st.indent rest).st⟩ := by
  rw [xsputnGo]
  simp

/-- Step equation: an undent mark adjusts the level and is discarded. -/
lemma xsputnGo_cons_und (sink : Sink) (st : FmtState) (rest : List Nat) :
    xsputnGo sink st (UndentB :: rest) =
      ⟨(xsputnGo sink st.undent rest).consumed + 1, (xsputnGo sink st.undent rest).out,
        (xsputnGo sink st.undent rest).st⟩ := by
  rw [xsputnGo]
  simp [IndentB, UndentB]

/-- Step equation: whitespace at the start of a line is discarded. -/
lemma xsputnGo_cons_ws (sink : Sink) (st : FmtState) (c : Nat) (rest : List Nat)
    (h1 : c ≠ IndentB) (h2 : c ≠ UndentB) (h3 : st.at_start_of_line = true)
    (h4 : isspaceB c = true) :
    xsputnGo sink st (c :: rest) =
      ⟨(xsputnGo sink st rest).consumed + 1, (xsputnGo sink st rest).out,
        (xsputnGo sink st rest).st⟩ := by
  rw [xsputnGo]
  simp [h1, h2, h3, h4]

/-- Step equation: the general shape of the remaining branches, with the
indentation step exposed. -/
lemma xsputnGo_cons_start (sink : Sink) (st : FmtState) (c : Nat) (rest : List Nat)
    (h1 : c ≠ IndentB) (h2 : c ≠ UndentB) (h3 : st.at_start_of_line = true)
    (h4 : isspaceB c = false) :
    xsputnGo sink st (c :: rest) =
      (if (do_indentation sink (st.indent_level * st.indent_increment)).2 ≠ 0 then
        ⟨0, (do_indentation sink (st.indent_level * st.indent_increment)).1,
          { st with pending_indent := (do_indentation sink (st.indent_level * st.indent_increment)).2 }⟩
      else if sink 1 = 1 then
        ⟨(xsputnGo sink
            { st with
              pending_indent := (do_indentation sink (st.indent_level * st.indent_increment)).2,
              at_start_of_line := c == EndOfLineB } rest).consumed + 1,
          (do_indentation sink (st.indent_level * st.indent_increment)).1 ++
            c :: (xsputnGo sink
              { st with
                pending_indent := (do_indentation sink (st.indent_level * st.indent_increment)).2,
                at_start_of_line := c == EndOfLineB } rest).out,
          (xsputnGo sink
            { st with
              pending_indent := (do_indentation sink (st.indent_level * st.indent_increment)).2,
              at_start_of_line := c == EndOfLineB } rest).st⟩
      else
        ⟨0, (do_indentation sink (st.indent_level * st.indent_increment)).1 ++ [c].take (sink 1),
          { st with
            pending_indent := (do_indentation sink (st.indent_level * st.indent_increment)).2,
            at_start_of_line := c == EndOfLineB }⟩) := by
  rw [xsputnGo]
  simp [h1, h2, h3, h4]

/-- Step equation: mid-line, the byte is emitted unconditionally (after the
`at_start_of_line` update). -/
lemma xsputnGo_cons_mid (sink : Sink) (st : FmtState) (c : Nat) (rest : List Nat)
    (h1 : c ≠ IndentB) (h2 : c ≠ UndentB) (h3 : st.at_start_of_line = false) :
    xsputnGo sink st (c :: rest) =
      (if sink 1 = 1 then
        ⟨(xsputnGo sink { st with at_start_of_line := c == EndOfLineB } rest).consumed + 1,
          c :: (xsputnGo sink { st with at_start_of_line := c == EndOfLineB } rest).out,
          (xsputnGo sink { st with at_start_of_line := c == EndOfLineB } rest).st⟩
      else ⟨0, [c].take (sink 1), { st with at_start_of_line := c == EndOfLineB }⟩) := by
  rw [xsputnGo]
  simp [h1, h2, h3]

/-- No byte equal to a control mark is ever delivered by the per-byte loop. -/
lemma xsputnGo_out_no_marks (sink : Sink) :
    ∀ (input : List Nat) (st : FmtState),
      ∀ b ∈ (xsputnGo sink st input).out, b ≠ IndentB ∧ b ≠ UndentB := by
  intro input
  induction input with
  | nil => intro st b hb; simp [xsputnGo] at hb
  | cons c rest ih =>
      intro st b hb
      have hsp : ∀ x : Nat, x = 32 ∨ x = 0 → x ≠ IndentB ∧ x ≠ UndentB := by
        rintro x (rfl | rfl) <;> exact ⟨by decide, by decide⟩
      by_cases h1 : c = IndentB
      · subst h1
        rw [xsputnGo_cons_ind] at hb
        exact ih _ b hb
      · by_cases h2 : c = UndentB
        · subst h2
          rw [xsputnGo_cons_und] at hb
          exact ih _ b hb
        · by_cases h3 : st.at_start_of_line = true
          · by_cases h4 : isspaceB c = true
            · rw [xsputnGo_cons_ws sink st c rest h1 h2 h3 h4] at hb
              exact ih _ b hb
            · rw [xsputnGo_cons_start sink st c rest h1 h2 h3
                (Bool.not_eq_true _ ▸ h4)] at hb
              split at hb
              · exact hsp b (doIndentLoop_out sink _ _ b hb)
              · split at hb
                · rcases List.mem_append.1 hb with h | h
                  · exact hsp b (doIndentLoop_out sink _ _ b h)
                  · rcases List.mem_cons.1 h with rfl | h
                    · exact ⟨h1, h2⟩
                    · exact ih _ b h
                · rcases List.mem_append.1 hb with h | h
                  · exact hsp b (doIndentLoop_out sink _ _ b h)
                  · have hbc : b = c := List.mem_singleton.1 (List.mem_of_mem_take h)
                    subst hbc
                    exact ⟨h1, h2⟩
          · rw [xsputnGo_cons_mid sink st c rest h1 h2
              (Bool.not_eq_true _ ▸ h3)] at hb
            split at hb
            · rcases List.mem_cons.1 hb with rfl | h
              · exact ⟨h1, h2⟩
              · exact ih _ b h
            · have hbc : b = c := List.mem_singleton.1 (List.mem_of_mem_take hb)
              subst hbc
              exact ⟨h1, h2⟩

/-- C7: for every sink, state and input, neither mark byte ever appears among
the bytes delivered to the sink; and a write consisting of a mark byte leaves
`at_start_of_line` exactly as it was. -/
theorem C7_marks_invisible :
    (∀ (sink : Sink) (st : FmtState) (input : List Nat),
      ∀ b ∈ (xsputn sink st input).out, b ≠ IndentB ∧ b ≠ UndentB) ∧
    (∀ (sink : Sink) (st : FmtState) (b : Nat), b = IndentB ∨ b = UndentB →
      (xsputn sink st [b]).st.at_start_of_line = st.at_start_of_line) := by
  constructor
  · intro sink st input b hb
    have hsp : ∀ x : Nat, x = 32 ∨ x = 0 → x ≠ IndentB ∧ x ≠ UndentB := by
      rintro x (rfl | rfl) <;> exact ⟨by decide, by decide⟩
    simp only [xsputn] at hb
    split at hb
    · split at hb
      · exact hsp b (doIndentLoop_out sink _ _ b hb)
      · rcases List.mem_append.1 hb with h | h
        · exact hsp b (doIndentLoop_out sink _ _ b h)
        · exact xsputnGo_out_no_marks sink input _ b h
    · exact xsputnGo_out_no_marks sink input _ b hb
  · rintro sink st b (rfl | rfl)
    · simp only [xsputn]
      split
      · split
        · rfl
        · rw [xsputnGo_cons_ind]
          simp [xsputnGo, indent_at_start]
      · rw [xsputnGo_cons_ind]
        simp [xsputnGo, indent_at_start]
    · simp only [xsputn]
      split
      · split
        · rfl
        · rw [xsputnGo_cons_und]
          simp [xsputnGo, undent_at_start]
      · rw [xsputnGo_cons_und]
        simp [xsputnGo, undent_at_start]

/-! ### Full-sink evaluation lemmas -/

/-- Operation `indent()` does not touch `pending_indent`. -/
lemma indent_pending (st : FmtState) : st.indent.pending_indent = st.pending_indent := rfl

/-- Operation `undent()` does not touch `pending_indent`. -/
lemma undent_pending (st : FmtState) : st.undent.pending_indent = st.pending_indent := by
  unfold FmtState.undent
  split <;> rfl

/-- Against the fully accepting sink, the indentation loop always completes
(no `pending_indent` is ever left) when given fuel at least the count. -/
lemma doIndentLoop_full_snd : ∀ fuel p, p ≤ fuel → (doIndentLoop fullSink fuel p).2 = 0 := by
  intro fuel
  induction fuel with
  | zero =>
      intro p hp
      have : p = 0 := Nat.le_zero.1 hp
      subst this
      rfl
  | succ fuel ih =>
      intro p hp
      cases p with
      | zero => rfl
      | succ q =>
          rw [doIndentLoop]
          simp only [fullSink, if_pos rfl]
          have hchunk : 1 ≤ min (q + 1) spacesCount :=
            le_min (by omega) (by decide)
          exact ih _ (by omega)

/-- Against the fully accepting sink, `do_indentation` never leaves pending
indentation. -/
lemma do_indentation_full_snd (n : Nat) : (do_indentation fullSink n).2 = 0 :=
  doIndentLoop_full_snd n n le_rfl

/-- Against the fully accepting sink, an indentation count of at most 16
(one chunk of the sixteen-space literal) delivers exactly that many spaces. -/
lemma do_indentation_full_small (n : Nat) (h : n ≤ 16) :
    do_indentation fullSink n = (List.replicate n 32, 0) := by
  cases n with
  | zero => rfl
  | succ q =>
      unfold do_indentation
      rw [doIndentLoop]
      have hmin : min (q + 1) spacesCount = q + 1 := by
        unfold spacesCount
        omega
      simp only [fullSink, hmin, if_pos rfl]
      have hzero : doIndentLoop fullSink q (q + 1 - (q + 1)) = ([], 0) := by
        simp
        cases q <;> rfl
      rw [hzero]
      simp only [List.append_nil]
      have htake : List.take (q + 1) spacesArr = List.replicate (q + 1) 32 := by
        rw [spacesArr, List.take_append_of_le_length (by simp; omega), List.take_replicate]
        congr 1
        omega
      rw [if_pos trivial, htake]

/-- Full-sink step equation at start of line for a non-whitespace content
byte: the indentation bytes, then the byte, then the rest from mid-line
state. -/
lemma xsputnGo_full_start (st : FmtState) (c : Nat) (rest : List Nat)
    (h1 : c ≠ IndentB) (h2 : c ≠ UndentB) (h3 : st.at_start_of_line = true)
    (h4 : isspaceB c = false) :
    xsputnGo fullSink st (c :: rest) =
      ⟨(xsputnGo fullSink
          { st with pending_indent := 0, at_start_of_line := c == EndOfLineB } rest).consumed + 1,
        (do_indentation fullSink (st.indent_level * st.indent_increment)).1 ++
          c :: (xsputnGo fullSink
            { st with pending_indent := 0, at_start_of_line := c == EndOfLineB } rest).out,
        (xsputnGo fullSink
          { st with pending_indent := 0, at_start_of_line := c == EndOfLineB } rest).st⟩ := by
  rw [xsputnGo_cons_start fullSink st c rest h1 h2 h3 h4]
  rw [do_indentation_full_snd]
  simp [fullSink]

/-- Full-sink step equation mid-line: the byte is emitted, the line-state
updated. -/
lemma xsputnGo_full_mid (st : FmtState) (c : Nat) (rest : List Nat)
    (h1 : c ≠ IndentB) (h2 : c ≠ UndentB) (h3 : st.at_start_of_line = false) :
    xsputnGo fullSink st (c :: rest) =
      ⟨(xsputnGo fullSink { st with at_start_of_line := c == EndOfLineB } rest).consumed + 1,
        c :: (xsputnGo fullSink { st with at_start_of_line := c == EndOfLineB } rest).out,
        (xsputnGo fullSink { st with at_start_of_line := c == EndOfLineB } rest).st⟩ := by
  rw [xsputnGo_cons_mid fullSink st c rest h1 h2 h3]
  simp [fullSink]

/-- Witness for C7 at a concrete sink, state and mark byte. -/
theorem C7_marks_invisible_witness :
    (∀ b ∈ (xsputn fullSink initFmt [65, 15, 14, 10]).out, b ≠ IndentB ∧ b ≠ UndentB) ∧
    (xsputn fullSink ⟨4, false, 2, 0⟩ [IndentB]).st.at_start_of_line = false := by
  constructor
  · exact C7_marks_invisible.1 fullSink initFmt [65, 15, 14, 10]
  · exact C7_marks_invisible.2 fullSink ⟨4, false, 2, 0⟩ IndentB (Or.inl rfl)

/-! ### C9: blank lines are removed, no consecutive EndOfLine bytes -/

/-- No two consecutive `EndOfLine` bytes occur in a byte list. -/
def noTwoEol (l : List Nat) : Prop :=
  List.Chain' (fun a b => ¬(a = EndOfLineB ∧ b = EndOfLineB)) l

/-- A run of bytes none of which is `EndOfLine` can be prepended to any list
without creating an adjacent `EndOfLine` pair. -/
lemma noTwoEol_append_left {l₁ l₂ : List Nat} (h1 : ∀ x ∈ l₁, x ≠ EndOfLineB)
    (h2 : noTwoEol l₂) : noTwoEol (l₁ ++ l₂) := by
  induction l₁ with
  | nil => simpa using h2
  | cons a t ih =>
      have ha : a ≠ EndOfLineB := h1 a (List.mem_cons_self a t)
      have ht : noTwoEol (t ++ l₂) := ih (fun x hx => h1 x (List.mem_cons_of_mem a hx))
      rw [List.cons_append]
      exact List.chain'_cons'.2 ⟨fun y _ hy => absurd hy.1 ha, ht⟩

/-- The invariant behind C9: against the fully accepting sink, from any state
with no pending indentation, the delivered bytes contain no adjacent pair of
`EndOfLine` bytes, and from a start-of-line state they do not begin with an
`EndOfLine` byte. -/
lemma go_full_noAdj :
    ∀ (input : List Nat) (st : FmtState), st.pending_indent = 0 →
      noTwoEol (xsputnGo fullSink st input).out ∧
      (st.at_start_of_line = true →
        ∀ y ∈ (xsputnGo fullSink st input).out.head?, y ≠ EndOfLineB) := by
  intro input
  induction input with
  | nil =>
      intro st hp
      constructor
      · simp [xsputnGo, noTwoEol]
      · intro _ y hy
        simp [xsputnGo] at hy
  | cons c rest ih =>
      intro st hp
      by_cases h1 : c = IndentB
      · subst h1
        rw [xsputnGo_cons_ind]
        have h := ih st.indent (by rw [indent_pending]; exact hp)
        exact ⟨h.1, fun ha => h.2 (by rw [indent_at_start]; exact ha)⟩
      · by_cases h2 : c = UndentB
        · subst h2
          rw [xsputnGo_cons_und]
          have h := ih st.undent (by rw [undent_pending]; exact hp)
          exact ⟨h.1, fun ha => h.2 (by rw [undent_at_start]; exact ha)⟩
        · by_cases h3 : st.at_start_of_line = true
          · by_cases h4 : isspaceB c = true
            · rw [xsputnGo_cons_ws fullSink st c rest h1 h2 h3 h4]
              exact ih st hp
            · have h4' : isspaceB c = false := Bool.not_eq_true _ ▸ h4
              have hc10 : c ≠ EndOfLineB := by
                intro hc
                subst hc
                exact absurd h4' (by decide)
              rw [xsputnGo_full_start st c rest h1 h2 h3 h4']
              have h := ih { st with pending_indent := 0, at_start_of_line := c == EndOfLineB }
                rfl
              have hind : ∀ x ∈ (do_indentation fullSink
                  (st.indent_level * st.indent_increment)).1, x ≠ EndOfLineB := by
                intro x hx
                rcases doIndentLoop_out fullSink _ _ x hx with rfl | rfl <;> decide
              constructor
              · refine noTwoEol_append_left hind ?_
                exact List.chain'_cons'.2 ⟨fun y _ hy => absurd hy.1 hc10, h.1⟩
              · intro _ y hy
                rcases hdi : (do_indentation fullSink
                    (st.indent_level * st.indent_increment)).1 with _ | ⟨x, t⟩
                · rw [hdi] at hy
                  simp only [List.nil_append, List.head?_cons, Option.mem_some_iff] at hy
                  subst hy
                  exact hc10
                · rw [hdi] at hy
                  simp only [List.cons_append, List.head?_cons, Option.mem_some_iff] at hy
                  subst hy
                  exact hind x (hdi ▸ List.mem_cons_self x t)
          · have h3' : st.at_start_of_line = false := Bool.not_eq_true _ ▸ h3
            rw [xsputnGo_full_mid st c rest h1 h2 h3']
            by_cases hc10 : c = EndOfLineB
            · subst hc10
              have h := ih { st with at_start_of_line := (EndOfLineB == EndOfLineB) } hp
              have hhead := h.2 (by simp)
              refine ⟨List.chain'_cons'.2 ⟨fun y hy hcon => ?_, h.1⟩, fun hfalse => by
                rw [h3'] at hfalse; cases hfalse⟩
              exact hhead y hy hcon.2
            · have h := ih { st with at_start_of_line := (c == EndOfLineB) } hp
              refine ⟨List.chain'_cons'.2 ⟨fun y _ hy => absurd hy.1 hc10, h.1⟩,
                fun hfalse => by rw [h3'] at hfalse; cases hfalse⟩

/-- C9: an `EndOfLine` byte arriving at start of line is treated as
whitespace: it is discarded (one byte consumed, nothing emitted) with the
state passed on unchanged — so blank lines vanish; and against a fully
accepting sink a write from a fresh line-start state never delivers two
consecutive `EndOfLine` bytes. -/
theorem C9_blank_lines_removed :
    (∀ (sink : Sink) (st : FmtState) (rest : List Nat), st.at_start_of_line = true →
      xsputnGo sink st (EndOfLineB :: rest) =
        ⟨(xsputnGo sink st rest).consumed + 1, (xsputnGo sink st rest).out,
          (xsputnGo sink st rest).st⟩) ∧
    (∀ (lvl inc : Nat) (input : List Nat),
      noTwoEol (xsputn fullSink ⟨inc, true, lvl, 0⟩ input).out) := by
  constructor
  · intro sink st rest h3
    exact xsputnGo_cons_ws sink st EndOfLineB rest (by decide) (by decide) h3 (by decide)
  · intro lvl inc input
    have h := go_full_noAdj input ⟨inc, true, lvl, 0⟩ rfl
    simpa [xsputn] using h.1

/-! ### C2 (amended): line-by-line re-indentation -/

/-- Expected remaining output of the amended claim, generalized over the
`at_start_of_line` flag: from mid-line the first line segment passes through
verbatim, the rest are re-indented. -/
def specRest (lvl inc : Nat) : Bool → List Nat → List Nat
  | true, input => joinLines ((linesOf input).map (specLine lvl inc))
  | false, input =>
    match linesOf input with
    | [] => []
    | s :: ss => joinLines (s :: ss.map (specLine lvl inc))

/-- The line-segment condition, generalized over the `at_start_of_line`
flag: mid-line, the current (first) segment is unconstrained. -/
def goodFor : Bool → List Nat → Bool
  | true, input => goodSegs (linesOf input)
  | false, input => goodSegs (linesOf input).tail

lemma specRest_true (lvl inc : Nat) (input : List Nat) :
    specRest lvl inc true input = joinLines ((linesOf input).map (specLine lvl inc)) := rfl

lemma specRest_false (lvl inc : Nat) (input : List Nat) {s : List Nat}
    {ss : List (List Nat)} (h : linesOf input = s :: ss) :
    specRest lvl inc false input = joinLines (s :: ss.map (specLine lvl inc)) := by
  rw [show specRest lvl inc false input =
      (match linesOf input with
       | [] => []
       | s :: ss => joinLines (s :: ss.map (specLine lvl inc))) from rfl, h]

lemma goodFor_true (input : List Nat) : goodFor true input = goodSegs (linesOf input) := rfl

lemma goodFor_false (input : List Nat) :
    goodFor false input = goodSegs (linesOf input).tail := rfl

lemma specLine_ne {l : List Nat} (h : l ≠ []) (lvl inc : Nat) :
    specLine lvl inc l = claimLine lvl inc l := by
  unfold specLine
  rw [if_neg h]

/-- Splitting into lines never returns an empty list of segments. -/
lemma linesOf_ne_nil : ∀ l : List Nat, linesOf l ≠ [] := by
  intro l
  cases l with
  | nil => simp [linesOf]
  | cons b r =>
      rw [linesOf]
      split
      · simp
      · rcases linesOf r with _ | ⟨s, ss⟩ <;> simp

/-- Equation for `linesOf` on a leading `EndOfLine`. -/
lemma linesOf_eol (r : List Nat) : linesOf (EndOfLineB :: r) = [] :: linesOf r := by
  rw [linesOf, if_pos rfl]

/-- Equation for `linesOf` on a leading non-`EndOfLine` byte. -/
lemma linesOf_cons_ne (b : Nat) (r : List Nat) (h : b ≠ EndOfLineB)
    {s : List Nat} {ss : List (List Nat)} (hr : linesOf r = s :: ss) :
    linesOf (b :: r) = (b :: s) :: ss := by
  rw [linesOf, if_neg h, hr]

/-- Equation for `joinLines` on a leading segment. -/
lemma joinLines_cons (s : List Nat) (ss : List (List Nat)) :
    joinLines (s :: ss) = s ++ (if ss = [] then [] else EndOfLineB :: joinLines ss) := by
  cases ss <;> simp [joinLines]

/-- A segment with a non-whitespace byte is nonempty. -/
lemma hasNonWs_ne_nil {s : List Nat} (h : hasNonWs s = true) : s ≠ [] := by
  intro hs
  subst hs
  simp [hasNonWs] at h

/-- Prepending a whitespace byte does not change `hasNonWs`. -/
lemma hasNonWs_cons_ws {b : Nat} (hb : isspaceB b = true) (s : List Nat) :
    hasNonWs (b :: s) = hasNonWs s := by
  simp [hasNonWs, hb]

/-- The main induction for C2: against the fully accepting sink, from a state
with no pending indentation and level-times-increment at most one chunk, a
mark-free input satisfying the segment condition produces exactly the
re-indented output. -/
lemma go_full_spec (lvl inc : Nat) (hsmall : lvl * inc ≤ 16) :
    ∀ (input : List Nat) (aStart : Bool),
      noMarks input = true → goodFor aStart input = true →
      (xsputnGo fullSink ⟨inc, aStart, lvl, 0⟩ input).out = specRest lvl inc aStart input := by
  intro input
  induction input with
  | nil =>
      intro aStart _ _
      cases aStart <;> simp [xsputnGo, specRest, linesOf, joinLines, specLine]
  | cons b r ih =>
      intro aStart hnm hgood
      simp only [noMarks, List.all_cons, Bool.and_eq_true, bne_iff_ne, ne_eq] at hnm
      obtain ⟨⟨hb1, hb2⟩, hnmr⟩ := hnm
      have hnmr' : noMarks r = true := hnmr
      rcases hlr : linesOf r with _ | ⟨s, ss⟩
      · exact absurd hlr (linesOf_ne_nil r)
      cases aStart with
      | true =>
          by_cases hb10 : b = EndOfLineB
          · subst hb10
            exfalso
            rw [goodFor_true, linesOf_eol, hlr] at hgood
            simp [goodSegs, hasNonWs] at hgood
          · have hlbr := linesOf_cons_ne b r hb10 hlr
            by_cases hws : isspaceB b = true
            · rw [xsputnGo_cons_ws fullSink _ b r hb1 hb2 rfl hws]
              rw [goodFor_true, hlbr] at hgood
              have hnws : hasNonWs s = true := by
                cases ss with
                | nil =>
                    simp only [goodSegs, List.isEmpty_cons, Bool.false_or,
                      hasNonWs_cons_ws hws] at hgood
                    exact hgood
                | cons s2 ss2 =>
                    simp only [goodSegs, Bool.and_eq_true, hasNonWs_cons_ws hws] at hgood
                    exact hgood.1
              have hgr : goodFor true r = true := by
                rw [goodFor_true, hlr]
                cases ss with
                | nil => simp [goodSegs, hnws]
                | cons s2 ss2 =>
                    simp only [goodSegs, Bool.and_eq_true, hasNonWs_cons_ws hws] at hgood
                    simp [goodSegs, hnws, hgood.2]
              rw [ih true hnmr' hgr]
              rw [specRest_true, specRest_true, hlbr, hlr, List.map_cons, List.map_cons]
              rw [specLine_ne (List.cons_ne_nil b s), specLine_ne (hasNonWs_ne_nil hnws)]
              unfold claimLine
              rw [List.dropWhile_cons_of_pos (by simp [hws])]
            · have hws' : isspaceB b = false := Bool.not_eq_true _ ▸ hws
              rw [xsputnGo_full_start _ b r hb1 hb2 rfl hws']
              have hbeq : (b == EndOfLineB) = false := by simp [hb10]
              rw [goodFor_true, hlbr] at hgood
              have hgr : goodFor false r = true := by
                rw [goodFor_false, hlr]
                cases ss with
                | nil => simp [goodSegs]
                | cons s2 ss2 =>
                    simp only [goodSegs, Bool.and_eq_true] at hgood
                    simpa [goodSegs] using hgood.2
              have hout := ih false hnmr' hgr
              simp only [hbeq] at hout ⊢
              rw [hout, specRest_false lvl inc r hlr]
              rw [do_indentation_full_small (lvl * inc) hsmall]
              rw [specRest_true, hlbr, List.map_cons]
              rw [specLine_ne (List.cons_ne_nil b s)]
              unfold claimLine
              rw [List.dropWhile_cons_of_neg (by simp [hws'])]
              rw [joinLines_cons, joinLines_cons]
              simp
      | false =>
          by_cases hb10 : b = EndOfLineB
          · subst hb10
            rw [xsputnGo_full_mid _ EndOfLineB r hb1 hb2 rfl]
            have hgr : goodFor true r = true := by
              rw [goodFor_false, linesOf_eol] at hgood
              rw [goodFor_true]
              exact hgood
            have hout := ih true hnmr' hgr
            simp only [beq_self_eq_true] at hout ⊢
            rw [hout, specRest_false lvl inc _ (linesOf_eol r)]
            rw [specRest_true]
            rw [joinLines_cons]
            have hmapne : (linesOf r).map (specLine lvl inc) ≠ [] := by
              simp [linesOf_ne_nil r]
            rw [if_neg hmapne]
            simp
          · rw [xsputnGo_full_mid _ b r hb1 hb2 rfl]
            have hbeq : (b == EndOfLineB) = false := by simp [hb10]
            have hlbr := linesOf_cons_ne b r hb10 hlr
            have hgr : goodFor false r = true := by
              rw [goodFor_false, hlbr] at hgood
              rw [goodFor_false, hlr]
              exact hgood
            have hout := ih false hnmr' hgr
            simp only [hbeq] at hout ⊢
            rw [hout, specRest_false lvl inc r hlr]
            rw [specRest_false lvl inc _ hlbr]
            rw [joinLines_cons, joinLines_cons]
            simp

/-- C2 (amended): for a fully accepting sink, a mark-free input in which every
line holds a non-whitespace byte (a trailing empty segment from a final
`EndOfLine` is allowed), with `indent_level * indent_increment ≤ 16`, the
delivered output is the input with each line's leading whitespace removed and
replaced by exactly `indent_level * indent_increment` spaces. -/
theorem C2_reindents_lines (lvl inc : Nat) (input : List Nat)
    (hm : noMarks input = true) (hg : goodSegs (linesOf input) = true)
    (hsmall : lvl * inc ≤ 16) :
    (xsputn fullSink ⟨inc, true, lvl, 0⟩ input).out = specIndent lvl inc input := by
  have h := go_full_spec lvl inc hsmall input true hm (by rw [goodFor_true]; exact hg)
  rw [specRest_true] at h
  simpa [xsputn, specIndent] using h

/-- Witness for C2 (amended) at level 1, increment 4, input " A\nB". -/
theorem C2_reindents_lines_witness :
    noMarks [32, 65, 10, 66] = true ∧ goodSegs (linesOf [32, 65, 10, 66]) = true ∧
    1 * 4 ≤ 16 ∧
    (xsputn fullSink ⟨4, true, 1, 0⟩ [32, 65, 10, 66]).out = specIndent 1 4 [32, 65, 10, 66] := by
  exact ⟨by decide, by decide, by decide,
    C2_reindents_lines 1 4 [32, 65, 10, 66] (by decide) (by decide) (by decide)⟩

/-- Witness for C9 at a concrete state and input ("A\n\n\nB"). -/
theorem C9_blank_lines_removed_witness :
    (xsputnGo fullSink ⟨4, true, 0, 0⟩ (EndOfLineB :: [65]) =
      ⟨(xsputnGo fullSink ⟨4, true, 0, 0⟩ [65]).consumed + 1,
        (xsputnGo fullSink ⟨4, true, 0, 0⟩ [65]).out,
        (xsputnGo fullSink ⟨4, true, 0, 0⟩ [65]).st⟩) ∧
    noTwoEol (xsputn fullSink ⟨4, true, 1, 0⟩ [65, 10, 10, 10, 66]).out := by
  exact ⟨C9_blank_lines_removed.1 fullSink ⟨4, true, 0, 0⟩ [65] rfl,
    C9_blank_lines_removed.2 1 4 [65, 10, 10, 10, 66]⟩

end Fmt
